import Mathlib

/-!
Shallow embedding of `src/app.py` (decohja/AnalisesFundos), a Streamlit app that
scrapes financial indicators of Brazilian real-estate funds (FIIs) from three
web sources, merges them by trust order, bound-checks two indicators, scores the
merged record, and persists analyses to a CSV ledger.

Modelling conventions:
* Python dict / pandas Series values that occur on these code paths are either
  strings or `None`; they are embedded as `Value` (`Value.none` / `Value.str`).
* A Python dict is embedded as an association list `Dict` in insertion order;
  `dget` is `d.get(k)` (returning `None` when missing) and `dset` is
  `d[k] = v` (replace in place, or append for a fresh key).  Real Python dicts
  never hold duplicate keys, so lemmas may assume `(keysOf d).Nodup`.
* Python floats are embedded as `ℚ`; every numeric literal in the source is a
  short decimal fraction, exactly representable.
-/

namespace AF

/-- A Python value stored in the scraped-data dictionaries: `None` or a string. -/
inductive Value where
  | none : Value
  | str : String → Value
deriving DecidableEq, Repr

/-- A Python dict in insertion order (keys are unique in any real dict). -/
abbrev Dict := List (String × Value)

/-- Embeds `_ok` (line 34): `v not in [None, "", "N/A", "NA"]`. -/
def okV : Value → Bool
  | Value.none => false
  | Value.str s => !(s = "" || s = "N/A" || s = "NA")

/-- Python `d.get(k)`: value of the first binding of `k`, `None` when missing. -/
def dget : Dict → String → Value
  | [], _ => Value.none
  | (a, b) :: rest, k => if a = k then b else dget rest k

/-- Python `d[k] = v`: replace the value of an existing key in place, else append. -/
def dset : Dict → String → Value → Dict
  | [], k, v => [(k, v)]
  | (a, b) :: rest, k, v => if a = k then (a, v) :: rest else (a, b) :: dset rest k v

/-- The keys of a dict, in insertion order. -/
def keysOf (d : Dict) : List String := d.map Prod.fst

/-- Embeds `_merge` (lines 37-41): copy `primary`, then for each item of
`secondary` fill the slot whenever the current value is not `_ok`. -/
def merge : Dict → Dict → Dict
  | p, [] => p
  | p, (k, v) :: rest => merge (if okV (dget p k) then p else dset p k v) rest

/-- Left fold of `_merge` over further sources, as `fetch_all` does. -/
def mergeList : Dict → List Dict → Dict
  | acc, [] => acc
  | acc, r :: rest => mergeList (merge acc r) rest

/-- The merge chain of `fetch_all` (lines 177-185) generalized to any list of
source records in descending trust order: `_merge(_merge(base, a), b)…`. -/
def consolidate : List Dict → Dict
  | [] => []
  | r :: rest => mergeList r rest

/-- Embeds `fetch_all` (lines 177-185) given the three already-fetched source
records: merge in trust order FE > SI > I10, then set the upper-cased ticker. -/
def fetch_all (ticker : String) (base a b : Dict) : Dict :=
  dset (consolidate [base, a, b]) "Ticker" (Value.str ticker.toUpper)

/-- Replace a value that is not `_ok` by `None`; the absence-respecting view of
a stored value (the code itself distinguishes `None` from `""` only via `_ok`). -/
def maskAbs (v : Value) : Value := if okV v then v else Value.none

/-- The value of the first record (in list order) whose value for `k` is `_ok`,
or `None` when no record has an `_ok` value for `k`. -/
def firstOkVal (rs : List Dict) (k : String) : Value :=
  match rs.find? (fun r => okV (dget r k)) with
  | Option.some r => dget r k
  | Option.none => Value.none

-- ===== basic dict lemmas =====

theorem dget_dset_self (d : Dict) (k : String) (v : Value) :
    dget (dset d k v) k = v := by
  induction d with
  | nil => simp [dset, dget]
  | cons p rest ih =>
    obtain ⟨a, b⟩ := p
    by_cases h : a = k
    · simp [dset, dget, h]
    · simp [dset, dget, h, ih]

theorem dget_dset_ne (d : Dict) (k k' : String) (v : Value) (h : k' ≠ k) :
    dget (dset d k' v) k = dget d k := by
  induction d with
  | nil => simp [dset, dget, h]
  | cons p rest ih =>
    obtain ⟨a, b⟩ := p
    by_cases ha : a = k'
    · subst ha
      simp [dset, dget, h]
    · by_cases hk : a = k
      · simp [dset, dget, ha, hk, Ne.symm h]
      · simp [dset, dget, ha, hk, ih]

theorem mem_keysOf_dset (d : Dict) (k k' : String) (v : Value) :
    k ∈ keysOf (dset d k' v) ↔ k ∈ keysOf d ∨ k = k' := by
  induction d with
  | nil => simp [dset, keysOf]
  | cons p rest ih =>
    obtain ⟨a, b⟩ := p
    by_cases ha : a = k'
    · subst ha
      simp [dset, keysOf]
      tauto
    · simp [dset, keysOf, ha] at ih ⊢
      rw [ih]
      tauto

theorem dget_eq_none_of_not_mem (d : Dict) (k : String) (h : k ∉ keysOf d) :
    dget d k = Value.none := by
  induction d with
  | nil => rfl
  | cons p rest ih =>
    obtain ⟨a, b⟩ := p
    simp only [keysOf, List.map_cons, List.mem_cons, not_or] at h
    simp [dget, Ne.symm h.1, ih h.2]

theorem mem_keysOf_of_ok (d : Dict) (k : String) (h : okV (dget d k) = true) :
    k ∈ keysOf d := by
  by_contra hk
  rw [dget_eq_none_of_not_mem d k hk] at h
  simp [okV] at h

theorem dget_merge (s p : Dict) (k : String) (hs : (keysOf s).Nodup) :
    dget (merge p s) k =
      if okV (dget p k) then dget p k
      else if k ∈ keysOf s then dget s k else dget p k := by
  induction s generalizing p with
  | nil =>
    simp only [merge, keysOf, List.map_nil, List.not_mem_nil, if_false]
    split <;> rfl
  | cons ab rest ih =>
    obtain ⟨a, b⟩ := ab
    simp only [keysOf, List.map_cons, List.nodup_cons] at hs
    obtain ⟨ha, hrest⟩ := hs
    show dget (merge (if okV (dget p a) then p else dset p a b) rest) k = _
    rw [ih _ hrest]
    by_cases hk : k = a
    · subst hk
      by_cases hok : okV (dget p k)
      · simp [hok, ha, keysOf]
      · simp [hok, ha, keysOf, dget_dset_self, dget]
    · have hp' : dget (if okV (dget p a) then p else dset p a b) k = dget p k := by
        split
        · rfl
        · exact dget_dset_ne p k a b (fun hh => hk hh.symm)
      rw [hp']
      by_cases hm : k ∈ List.map Prod.fst rest
      · simp [keysOf, dget, hk, Ne.symm hk, hm, List.mem_cons]
      · simp [keysOf, dget, hk, Ne.symm hk, hm, List.mem_cons]

theorem mem_keys_merge (s p : Dict) (k : String) :
    k ∈ keysOf (merge p s) ↔ k ∈ keysOf p ∨ k ∈ keysOf s := by
  induction s generalizing p with
  | nil => simp [merge, keysOf]
  | cons ab rest ih =>
    obtain ⟨a, b⟩ := ab
    show k ∈ keysOf (merge (if okV (dget p a) then p else dset p a b) rest) ↔ _
    rw [ih]
    have hmem : k ∈ keysOf (if okV (dget p a) then p else dset p a b) ↔
        k ∈ keysOf p ∨ k = a := by
      by_cases h : okV (dget p a)
      · rw [if_pos h]
        constructor
        · exact Or.inl
        · rintro (hh | rfl)
          · exact hh
          · exact mem_keysOf_of_ok p k h
      · rw [if_neg h]
        exact mem_keysOf_dset p k a b
    rw [hmem]
    simp [keysOf]
    tauto

theorem mergeList_mask (rs : List Dict) (acc : Dict) (k : String)
    (h : ∀ r ∈ rs, (keysOf r).Nodup) :
    maskAbs (dget (mergeList acc rs) k) =
      if okV (dget acc k) then dget acc k else firstOkVal rs k := by
  induction rs generalizing acc with
  | nil =>
    show maskAbs (dget acc k) = _
    simp [maskAbs, firstOkVal]
  | cons r rest ih =>
    have hr : (keysOf r).Nodup := h r (by simp)
    have hrest : ∀ x ∈ rest, (keysOf x).Nodup := fun x hx => h x (by simp [hx])
    show maskAbs (dget (mergeList (merge acc r) rest) k) = _
    rw [ih _ hrest, dget_merge r acc k hr]
    by_cases hok : okV (dget acc k)
    · simp [hok]
    · simp only [hok, Bool.false_eq_true, if_false]
      by_cases hmem : k ∈ keysOf r
      · by_cases hokr : okV (dget r k)
        · simp [hmem, hokr, firstOkVal, List.find?_cons_of_pos]
        · simp [hmem, hokr, firstOkVal, List.find?_cons_of_neg]
      · have hnone : dget r k = Value.none := dget_eq_none_of_not_mem r k hmem
        have hokr : okV (dget r k) = false := by rw [hnone]; rfl
        simp [hmem, hok, hokr, firstOkVal, List.find?_cons_of_neg]

theorem consolidate_mask (rs : List Dict) (k : String)
    (h : ∀ r ∈ rs, (keysOf r).Nodup) :
    maskAbs (dget (consolidate rs) k) = firstOkVal rs k := by
  cases rs with
  | nil => simp [consolidate, dget, maskAbs, firstOkVal, okV]
  | cons r rest =>
    show maskAbs (dget (mergeList r rest) k) = _
    rw [mergeList_mask rest r k (fun x hx => h x (by simp [hx]))]
    by_cases hok : okV (dget r k)
    · simp [hok, firstOkVal, List.find?_cons_of_pos]
    · simp [hok, firstOkVal, List.find?_cons_of_neg]

/-- Source Record A of the spec's reconciliation example: rank 1, only
`price_to_book = 1.0`. -/
def recA : Dict := [("price_to_book", Value.str "1.0")]

/-- Source Record B of the spec's reconciliation example: rank 2, with
`price_to_book = 2.0` and `dividend_yield_12m = 10`. -/
def recB : Dict :=
  [("price_to_book", Value.str "2.0"), ("dividend_yield_12m", Value.str "10")]

/-- C1: reconciliation merges source records per indicator.  For any list of
source records in ascending trust-rank order, each indicator of the
consolidated record is (up to the code's absence predicate `_ok`) the value of
the first record in which that indicator is present; if no record has it, it is
absent — never a default.  Concretely, with Source Record A (rank 1) carrying
`price_to_book=1.0` and B (rank 2) carrying `price_to_book=2.0,
dividend_yield_12m=10`, the merge yields `price_to_book=1.0` (A wins) and
`dividend_yield_12m=10` (B fills A's gap). -/
theorem C1_reconcile_per_indicator :
    (∀ (rs : List Dict) (k : String), (∀ r ∈ rs, (keysOf r).Nodup) →
      maskAbs (dget (consolidate rs) k) = firstOkVal rs k) ∧
    dget (consolidate [recA, recB]) "price_to_book" = Value.str "1.0" ∧
    dget (consolidate [recA, recB]) "dividend_yield_12m" = Value.str "10" :=
  ⟨consolidate_mask, by decide, by decide⟩

/-- Witness for C1 at the spec's concrete A/B example. -/
theorem C1_reconcile_per_indicator_witness :
    (∀ r ∈ [recA, recB], (keysOf r).Nodup) ∧
    maskAbs (dget (consolidate [recA, recB]) "price_to_book") =
      firstOkVal [recA, recB] "price_to_book" :=
  ⟨by decide, C1_reconcile_per_indicator.1 [recA, recB] "price_to_book" (by decide)⟩

/-- C10: during reconciliation `None`, `""`, `"N/A"` and `"NA"` count as absent
(`_ok` is false exactly on them); `_merge`'s key set is the union of both key
sets; a key whose higher-trust value is not `_ok` takes the lower-trust
record's value when the lower-trust record has the key, and a key whose
higher-trust value is `_ok` keeps it unchanged. -/
theorem C10_merge_fills_only_absent (p s : Dict) (hs : (keysOf s).Nodup)
    (k : String) :
    (okV Value.none = false ∧ okV (Value.str "") = false ∧
      okV (Value.str "N/A") = false ∧ okV (Value.str "NA") = false) ∧
    (k ∈ keysOf (merge p s) ↔ k ∈ keysOf p ∨ k ∈ keysOf s) ∧
    dget (merge p s) k =
      (if okV (dget p k) then dget p k
       else if k ∈ keysOf s then dget s k else dget p k) :=
  ⟨by decide, mem_keys_merge s p k, dget_merge s p k hs⟩

/-- Witness for C10 at a concrete pair of records. -/
theorem C10_merge_fills_only_absent_witness :
    (keysOf [("a", Value.str "1"), ("c", Value.str "2")]).Nodup ∧
    (("a" ∈ keysOf (merge [("a", Value.str "N/A"), ("b", Value.str "x")]
        [("a", Value.str "1"), ("c", Value.str "2")]) ↔
      "a" ∈ keysOf [("a", Value.str "N/A"), ("b", Value.str "x")] ∨
      "a" ∈ keysOf [("a", Value.str "1"), ("c", Value.str "2")])) :=
  ⟨by decide,
   (C10_merge_fills_only_absent [("a", Value.str "N/A"), ("b", Value.str "x")]
     [("a", Value.str "1"), ("c", Value.str "2")] (by decide) "a").2.1⟩

-- ===== numeric normalizer (`_clean_num`, lines 11-22) =====

/-- ASCII whitespace stripped by Python `str.strip()` (the non-breaking space
has already been mapped to a plain space by the preceding `replace`). -/
def isPySpace (c : Char) : Bool :=
  c = ' ' || c = '\t' || c = '\n' || c = '\r' || c = '\x0b' || c = '\x0c'

/-- Python `str.strip()`: drop whitespace from both ends. -/
def pyStrip (cs : List Char) : List Char :=
  ((cs.dropWhile isPySpace).reverse.dropWhile isPySpace).reverse

/-- The character class kept by `re.sub(r"[^\d,.\-]", "", s)`: digits, comma,
dot, minus (ASCII; the sources only produce ASCII digits). -/
def keepNumChar (c : Char) : Bool := c.isDigit || c = ',' || c = '.' || c = '-'

/-- Reading a decimal digit string left to right with an accumulator. -/
def digitsToNatAux : Nat → List Char → Nat
  | a, [] => a
  | a, c :: cs => digitsToNatAux (10 * a + (c.toNat - 48)) cs

/-- The natural number denoted by a decimal digit string. -/
def digitsToNat (cs : List Char) : Nat := digitsToNatAux 0 cs

/-- The shape accepted by Python `float()` after the minus sign, on the
alphabet left by `_clean_num`'s substitutions: decimal digits with at most one
dot and at least one digit (commas, interior signs, a lone dot or sign, or an
empty string all fail; exponents and `inf`/`nan` are unreachable because
`re.sub` removed all letters).  Returns the integer and fraction digit runs. -/
def pyShapeCore (cs : List Char) : Option (List Char × List Char) :=
  let ip := cs.takeWhile Char.isDigit
  match cs.dropWhile Char.isDigit with
  | [] => if ip.isEmpty then Option.none else Option.some (ip, [])
  | d :: fp =>
    if d = '.' && fp.all Char.isDigit && !(ip.isEmpty && fp.isEmpty) then
      Option.some (ip, fp)
    else Option.none

/-- The shape accepted by Python `float()`: an optional leading minus sign
(only `-` can survive `re.sub`), then `pyShapeCore`. -/
def pyShape (cs : List Char) : Option (Bool × List Char × List Char) :=
  match cs with
  | [] => (pyShapeCore []).map (fun p => (false, p.1, p.2))
  | c :: rest =>
    if c = '-' then (pyShapeCore rest).map (fun p => (true, p.1, p.2))
    else (pyShapeCore (c :: rest)).map (fun p => (false, p.1, p.2))

/-- The rational value of a parsed float: sign times integer part plus
fraction digits scaled down by their count. -/
def ratOfParts : Bool × List Char × List Char → ℚ
  | (b, ip, fp) =>
    (cond b (-1) 1) * ((digitsToNat ip : ℚ) + (digitsToNat fp : ℚ) / 10 ^ fp.length)

/-- Python `float(s)` on the strings `_clean_num` can feed it: `Option.none`
models the `ValueError` caught by the enclosing `try`. -/
def pyFloat (cs : List Char) : Option ℚ := (pyShape cs).map ratOfParts

/-- Stage 1 of `_clean_num`: `.replace("\xa0", " ")`. -/
def cnStage1 (cs : List Char) : List Char :=
  cs.map (fun c => if c = '\xa0' then ' ' else c)

/-- Stage 2 of `_clean_num`: `.replace("%", "")`. -/
def cnStage2 (cs : List Char) : List Char := cs.filter (fun c => decide (c ≠ '%'))

/-- Stage 4 of `_clean_num` (stage 3 is `pyStrip`):
`re.sub(r"[^\d,.\-]", "", s)`. -/
def cnStage4 (cs : List Char) : List Char := cs.filter keepNumChar

/-- Stage 5 of `_clean_num`: the two comma-branch rewrites of lines 15-18.
One comma and at least one dot: drop dots, turn the comma into a dot; one
comma and no dot: turn the comma into a dot; otherwise leave unchanged. -/
def cnStage5 (cs : List Char) : List Char :=
  if cs.count ',' = 1 ∧ 1 ≤ cs.count '.' then
    (cs.filter (fun c => decide (c ≠ '.'))).map (fun c => if c = ',' then '.' else c)
  else if cs.count ',' = 1 ∧ cs.count '.' = 0 then
    cs.map (fun c => if c = ',' then '.' else c)
  else cs

/-- Embeds `_clean_num` (lines 11-22) on the character list of the input
string: replace `\xa0` by a space and drop `%`, strip, keep only
`[\d,.\-]`, then the two comma branches of lines 15-18, then `float`. -/
def cleanNumChars (cs : List Char) : Option ℚ :=
  pyFloat (cnStage5 (cnStage4 (pyStrip (cnStage2 (cnStage1 cs)))))

/-- Embeds `_clean_num` on a Python string (the `s is None` case lives in
`cleanNumV`).  Total by construction: parse failure is `Option.none`, and the
function never raises. -/
def clean_num (s : String) : Option ℚ := cleanNumChars s.data

/-- Embeds `_clean_num` applied to a stored dict value, as the callers do:
`None` propagates to `None`, strings are parsed. -/
def cleanNumV : Value → Option ℚ
  | Value.none => Option.none
  | Value.str s => clean_num s

-- ===== zero is never manufactured: helper lemmas =====

theorem digitsToNatAux_eq_zero :
    ∀ (cs : List Char) (a : Nat), digitsToNatAux a cs = 0 → a = 0 := by
  intro cs
  induction cs with
  | nil => intro a h; exact h
  | cons c rest ih =>
    intro a h
    have h2 := ih _ h
    omega

theorem char_eq_zero_of_toNat (c : Char) (h : c.toNat = 48) : c = '0' := by
  have h2 := Char.ofNat_toNat c
  rw [h] at h2
  exact h2.symm

theorem zero_mem_of_digitsToNat_zero (cs : List Char) (hne : cs ≠ [])
    (hdig : ∀ c ∈ cs, c.isDigit = true) (h : digitsToNat cs = 0) : '0' ∈ cs := by
  cases cs with
  | nil => exact absurd rfl hne
  | cons c rest =>
    have hc : digitsToNatAux (10 * 0 + (c.toNat - 48)) rest = 0 := h
    have h48 : c.toNat - 48 = 0 := by
      have := digitsToNatAux_eq_zero rest _ hc
      omega
    have hd := hdig c (List.mem_cons_self c rest)
    simp [Char.isDigit] at hd
    have hge : 48 ≤ c.toNat := hd.1
    have : c = '0' := char_eq_zero_of_toNat c (by omega)
    subst this
    exact List.mem_cons_self _ _

theorem ratOfParts_eq_zero (b : Bool) (ip fp : List Char)
    (h : ratOfParts (b, ip, fp) = 0) :
    digitsToNat ip = 0 ∧ digitsToNat fp = 0 := by
  have hs : (cond b (-1 : ℚ) 1) ≠ 0 := by cases b <;> norm_num
  have hsum : (digitsToNat ip : ℚ) + (digitsToNat fp : ℚ) / 10 ^ fp.length = 0 := by
    rcases mul_eq_zero.mp h with h1 | h2
    · exact absurd h1 hs
    · exact h2
  have hA : (0 : ℚ) ≤ (digitsToNat ip : ℚ) := Nat.cast_nonneg _
  have hpow : (0 : ℚ) < 10 ^ fp.length := by positivity
  have hB : (0 : ℚ) ≤ (digitsToNat fp : ℚ) / 10 ^ fp.length :=
    div_nonneg (Nat.cast_nonneg _) (le_of_lt hpow)
  have hA0 : (digitsToNat ip : ℚ) = 0 := by linarith
  have hB0 : (digitsToNat fp : ℚ) / 10 ^ fp.length = 0 := by linarith
  constructor
  · exact_mod_cast hA0
  · rcases div_eq_zero_iff.mp hB0 with h1 | h1
    · exact_mod_cast h1
    · exact absurd h1 (ne_of_gt hpow)

theorem pyShapeCore_props (cs ip fp : List Char)
    (h : pyShapeCore cs = Option.some (ip, fp)) :
    (∀ c ∈ ip, c ∈ cs) ∧ (∀ c ∈ fp, c ∈ cs) ∧
    (∀ c ∈ ip, c.isDigit = true) ∧ (∀ c ∈ fp, c.isDigit = true) ∧
    (ip ≠ [] ∨ fp ≠ []) := by
  unfold pyShapeCore at h
  have hipmem : ∀ c ∈ cs.takeWhile Char.isDigit, c ∈ cs :=
    fun c hc => (List.takeWhile_sublist _).mem hc
  have hipdig : ∀ c ∈ cs.takeWhile Char.isDigit, c.isDigit = true :=
    fun c hc => List.mem_takeWhile_imp hc
  cases hdrop : cs.dropWhile Char.isDigit with
  | nil =>
    rw [hdrop] at h
    by_cases he : (cs.takeWhile Char.isDigit).isEmpty
    · simp [he] at h
    · simp only [he, Bool.false_eq_true, if_false, Option.some.injEq, Prod.mk.injEq] at h
      obtain ⟨h1, h2⟩ := h
      subst h1; subst h2
      refine ⟨hipmem, by simp, hipdig, by simp, Or.inl ?_⟩
      simpa [List.isEmpty_iff] using he
  | cons d rest =>
    rw [hdrop] at h
    have h' : (if d = '.' && rest.all Char.isDigit &&
        !((cs.takeWhile Char.isDigit).isEmpty && rest.isEmpty) then
          Option.some (cs.takeWhile Char.isDigit, rest)
        else Option.none) = Option.some (ip, fp) := h
    by_cases hcond : (d = '.' && rest.all Char.isDigit &&
        !((cs.takeWhile Char.isDigit).isEmpty && rest.isEmpty)) = true
    · rw [if_pos hcond] at h'
      simp only [Option.some.injEq, Prod.mk.injEq] at h'
      obtain ⟨h1, h2⟩ := h'
      rw [← h1, ← h2]
      simp only [Bool.and_eq_true, decide_eq_true_eq] at hcond
      obtain ⟨⟨hdot, hall⟩, hne2⟩ := hcond
      have hfpmem : ∀ c ∈ rest, c ∈ cs := by
        intro c hc
        have hsub : List.Sublist (d :: rest) cs := by
          rw [← hdrop]; exact List.dropWhile_sublist _
        exact hsub.mem (List.mem_cons_of_mem _ hc)
      have hfpdig : ∀ c ∈ rest, c.isDigit = true :=
        fun c hc => List.all_eq_true.mp hall c hc
      have hne : cs.takeWhile Char.isDigit ≠ [] ∨ rest ≠ [] := by
        simp only [Bool.not_eq_true', Bool.and_eq_false_iff] at hne2
        rcases hne2 with hx | hx
        · exact Or.inl (by simpa [List.isEmpty_iff] using hx)
        · exact Or.inr (by simpa [List.isEmpty_iff] using hx)
      exact ⟨hipmem, hfpmem, hipdig, hfpdig, hne⟩
    · rw [if_neg hcond] at h'
      exact absurd h' (by simp)

theorem pyShape_tail (cs : List Char) (b : Bool) (ip fp : List Char)
    (h : pyShape cs = Option.some (b, ip, fp)) :
    ∃ tail, (∀ c ∈ tail, c ∈ cs) ∧ pyShapeCore tail = Option.some (ip, fp) := by
  cases cs with
  | nil =>
    refine ⟨[], by simp, ?_⟩
    unfold pyShape at h
    rw [Option.map_eq_some'] at h
    obtain ⟨⟨a1, a2⟩, ha, hb⟩ := h
    simp only [Prod.mk.injEq] at hb
    rw [ha, hb.2.1, hb.2.2]
  | cons c rest =>
    unfold pyShape at h
    have h' : (if c = '-' then
        Option.map (fun p : List Char × List Char => (true, p.1, p.2)) (pyShapeCore rest)
      else
        Option.map (fun p : List Char × List Char => (false, p.1, p.2))
          (pyShapeCore (c :: rest))) = Option.some (b, ip, fp) := h
    by_cases hc : c = '-'
    · rw [if_pos hc, Option.map_eq_some'] at h'
      obtain ⟨⟨a1, a2⟩, ha, hb⟩ := h'
      simp only [Prod.mk.injEq] at hb
      exact ⟨rest, fun x hx => List.mem_cons_of_mem _ hx, by rw [ha, hb.2.1, hb.2.2]⟩
    · rw [if_neg hc, Option.map_eq_some'] at h'
      obtain ⟨⟨a1, a2⟩, ha, hb⟩ := h'
      simp only [Prod.mk.injEq] at hb
      exact ⟨c :: rest, fun x hx => hx, by rw [ha, hb.2.1, hb.2.2]⟩

theorem pyFloat_zero (cs : List Char) (h : pyFloat cs = Option.some 0) :
    '0' ∈ cs := by
  unfold pyFloat at h
  rw [Option.map_eq_some'] at h
  obtain ⟨⟨b, ip, fp⟩, hs, hz⟩ := h
  obtain ⟨tail, htm, hcore⟩ := pyShape_tail cs b ip fp hs
  obtain ⟨hipm, hfpm, hipd, hfpd, hne⟩ := pyShapeCore_props tail ip fp hcore
  obtain ⟨hz1, hz2⟩ := ratOfParts_eq_zero b ip fp hz
  rcases hne with hne | hne
  · exact htm '0' (hipm '0' (zero_mem_of_digitsToNat_zero ip hne hipd hz1))
  · exact htm '0' (hfpm '0' (zero_mem_of_digitsToNat_zero fp hne hfpd hz2))

theorem mem_cnStage1 (cs : List Char) (h : '0' ∈ cnStage1 cs) : '0' ∈ cs := by
  unfold cnStage1 at h
  rw [List.mem_map] at h
  obtain ⟨a, ha, hm⟩ := h
  by_cases hx : a = '\xa0'
  · rw [if_pos hx] at hm
    exact absurd hm (by decide)
  · rw [if_neg hx] at hm
    exact hm ▸ ha

theorem mem_cnStage2 (c : Char) (cs : List Char) (h : c ∈ cnStage2 cs) : c ∈ cs :=
  (List.mem_filter.mp h).1

theorem mem_pyStrip (c : Char) (cs : List Char) (h : c ∈ pyStrip cs) : c ∈ cs := by
  unfold pyStrip at h
  rw [List.mem_reverse] at h
  have h2 := (List.dropWhile_sublist _).mem h
  rw [List.mem_reverse] at h2
  exact (List.dropWhile_sublist _).mem h2

theorem mem_cnStage4 (c : Char) (cs : List Char) (h : c ∈ cnStage4 cs) : c ∈ cs :=
  (List.mem_filter.mp h).1

theorem mem_cnStage5 (cs : List Char) (h : '0' ∈ cnStage5 cs) : '0' ∈ cs := by
  unfold cnStage5 at h
  have hmap : ∀ l : List Char, '0' ∈ l.map (fun c => if c = ',' then '.' else c) →
      '0' ∈ l := by
    intro l hl
    rw [List.mem_map] at hl
    obtain ⟨a, ha, hm⟩ := hl
    by_cases hx : a = ','
    · rw [if_pos hx] at hm
      exact absurd hm (by decide)
    · rw [if_neg hx] at hm
      exact hm ▸ ha
  split at h
  · exact (List.mem_filter.mp (hmap _ h)).1
  · split at h
    · exact hmap _ h
    · exact h

/-- A number is produced only from text that genuinely parses; in particular
zero can only come from an actual `0` digit in the input. -/
theorem clean_num_zero (s : String) (h : clean_num s = Option.some 0) :
    '0' ∈ s.data := by
  unfold clean_num cleanNumChars at h
  exact mem_cnStage1 _ (mem_cnStage2 _ _ (mem_pyStrip _ _ (mem_cnStage4 _ _
    (mem_cnStage5 _ (pyFloat_zero _ h)))))

theorem clean_num_ex1 : clean_num "1.234,56" = Option.some (1234.56 : ℚ) := by
  show (pyShape (cnStage5 (cnStage4 (pyStrip (cnStage2 (cnStage1
    "1.234,56".data)))))).map ratOfParts = _
  rw [(by decide : pyShape (cnStage5 (cnStage4 (pyStrip (cnStage2 (cnStage1
    "1.234,56".data))))) = Option.some (false, ['1', '2', '3', '4'], ['5', '6']))]
  simp only [Option.map_some', ratOfParts, Bool.cond_false, Option.some.injEq]
  rw [(by decide : digitsToNat ['1', '2', '3', '4'] = 1234),
    (by decide : digitsToNat ['5', '6'] = 56)]
  norm_num

theorem clean_num_ex2 : clean_num "12,5%" = Option.some (12.5 : ℚ) := by
  show (pyShape (cnStage5 (cnStage4 (pyStrip (cnStage2 (cnStage1
    "12,5%".data)))))).map ratOfParts = _
  rw [(by decide : pyShape (cnStage5 (cnStage4 (pyStrip (cnStage2 (cnStage1
    "12,5%".data))))) = Option.some (false, ['1', '2'], ['5']))]
  simp only [Option.map_some', ratOfParts, Bool.cond_false, Option.some.injEq]
  rw [(by decide : digitsToNat ['1', '2'] = 12),
    (by decide : digitsToNat ['5'] = 5)]
  norm_num

theorem clean_num_ex3 : clean_num "abc" = Option.none := by
  show (pyShape (cnStage5 (cnStage4 (pyStrip (cnStage2 (cnStage1
    "abc".data)))))).map ratOfParts = _
  rw [(by decide : pyShape (cnStage5 (cnStage4 (pyStrip (cnStage2 (cnStage1
    "abc".data))))) = Option.none)]
  rfl

theorem clean_num_eval_zero : clean_num "0" = Option.some (0 : ℚ) := by
  show (pyShape (cnStage5 (cnStage4 (pyStrip (cnStage2 (cnStage1
    "0".data)))))).map ratOfParts = _
  rw [(by decide : pyShape (cnStage5 (cnStage4 (pyStrip (cnStage2 (cnStage1
    "0".data))))) = Option.some (false, ['0'], []))]
  simp only [Option.map_some', ratOfParts, Bool.cond_false, Option.some.injEq]
  rw [(by decide : digitsToNat ['0'] = 0), (by decide : digitsToNat ([] : List Char) = 0)]
  norm_num

/-- C3: the numeric normalizer `_clean_num` is a total function returning a
rational or absent (parse failure is `Option.none`, never an exception):
`normalize("1.234,56") = 1234.56`, `normalize("12,5%") = 12.5`,
`normalize("abc")` is absent, and no input is silently coerced to zero — a
zero result can only come from an explicit `0` digit in the input, so an
unparseable string yields absent, not 0. -/
theorem C3_normalizer_total_and_exact :
    clean_num "1.234,56" = Option.some (1234.56 : ℚ) ∧
    clean_num "12,5%" = Option.some (12.5 : ℚ) ∧
    clean_num "abc" = Option.none ∧
    (∀ s : String, clean_num s = Option.some 0 → '0' ∈ s.data) :=
  ⟨clean_num_ex1, clean_num_ex2, clean_num_ex3, clean_num_zero⟩

/-- Witness for C3: the zero-provenance clause at the input `"0"`. -/
theorem C3_normalizer_total_and_exact_witness :
    clean_num "0" = Option.some (0 : ℚ) ∧ '0' ∈ "0".data :=
  ⟨clean_num_eval_zero,
   C3_normalizer_total_and_exact.2.2.2 "0" clean_num_eval_zero⟩

-- ===== plausibility filter (`_clip` + the fetchers' sanity lines) =====

/-- Embeds `_clip` (lines 43-48) as the callers apply it, to the result of
`_clean_num`: `float(None)` raises, caught as `False`; a number passes iff it
lies in the closed interval `[lo, hi]`. -/
def clipB : Option ℚ → ℚ → ℚ → Bool
  | Option.none, _, _ => false
  | Option.some q, lo, hi => decide (lo ≤ q ∧ q ≤ hi)

/-- The dividend-yield column name used by the fetchers. -/
def DYkey : String := "Dividend Yield 12m (%)"

/-- The price-to-book column name used by the fetchers. -/
def PVPkey : String := "P/VP"

/-- First sanity line shared by the three fetchers (lines 115, 142, 173):
dividend yield whose cleaned value is not in `[0, 40]` becomes `None`. -/
def sanitizeDY (d : Dict) : Dict :=
  if clipB (cleanNumV (dget d DYkey)) 0 40 then d else dset d DYkey Value.none

/-- Second sanity line shared by the three fetchers (lines 116, 143, 174):
P/VP whose cleaned value is not in `[0.4, 2.2]` becomes `None`. -/
def sanitizePVP (d : Dict) : Dict :=
  if clipB (cleanNumV (dget d PVPkey)) (4/10) (22/10) then d else dset d PVPkey Value.none

/-- The whole `# Limpeza / sanity` tail of each fetcher, in source order. -/
def sanitize (d : Dict) : Dict := sanitizePVP (sanitizeDY d)

theorem dget_sanitizePVP_DY (d : Dict) :
    dget (sanitizePVP d) DYkey = dget d DYkey := by
  unfold sanitizePVP
  split
  · rfl
  · exact dget_dset_ne d DYkey PVPkey Value.none (by decide)

theorem sanitizeDY_ok (d : Dict)
    (hok : okV (dget (sanitizeDY d) DYkey) = true) :
    clipB (cleanNumV (dget (sanitizeDY d) DYkey)) 0 40 = true := by
  unfold sanitizeDY at hok ⊢
  by_cases c1 : clipB (cleanNumV (dget d DYkey)) 0 40 = true
  · rw [if_pos c1]
    exact c1
  · rw [if_neg c1] at hok
    rw [dget_dset_self] at hok
    exact absurd hok (by simp [okV])

theorem sanitize_DY_ok (d : Dict)
    (hok : okV (dget (sanitize d) DYkey) = true) :
    clipB (cleanNumV (dget (sanitize d) DYkey)) 0 40 = true := by
  unfold sanitize at hok ⊢
  rw [dget_sanitizePVP_DY] at hok ⊢
  exact sanitizeDY_ok d hok

theorem sanitize_PVP_ok (d : Dict)
    (hok : okV (dget (sanitize d) PVPkey) = true) :
    clipB (cleanNumV (dget (sanitize d) PVPkey)) (4/10) (22/10) = true := by
  unfold sanitize sanitizePVP at hok ⊢
  by_cases c1 : clipB (cleanNumV (dget (sanitizeDY d) PVPkey)) (4/10) (22/10) = true
  · rw [if_pos c1]
    exact c1
  · rw [if_neg c1] at hok
    rw [dget_dset_self] at hok
    exact absurd hok (by simp [okV])

theorem keysOf_dset_nodup (d : Dict) (k : String) (v : Value)
    (h : (keysOf d).Nodup) : (keysOf (dset d k v)).Nodup := by
  induction d with
  | nil => simp [dset, keysOf]
  | cons p rest ih =>
    obtain ⟨a, b⟩ := p
    simp only [keysOf, List.map_cons, List.nodup_cons] at h
    obtain ⟨ha, hrest⟩ := h
    by_cases hak : a = k
    · simp only [dset, if_pos hak, keysOf, List.map_cons, List.nodup_cons]
      exact ⟨ha, hrest⟩
    · simp only [dset, if_neg hak, keysOf, List.map_cons, List.nodup_cons]
      refine ⟨?_, ih hrest⟩
      intro hmem
      rcases (mem_keysOf_dset rest a k v).mp hmem with h1 | h1
      · exact ha h1
      · exact hak h1

theorem sanitize_nodup (d : Dict) (h : (keysOf d).Nodup) :
    (keysOf (sanitize d)).Nodup := by
  unfold sanitize sanitizePVP sanitizeDY
  split
  · split
    · exact h
    · exact keysOf_dset_nodup _ _ _ h
  · split
    · exact keysOf_dset_nodup _ _ _ h
    · exact keysOf_dset_nodup _ _ _ (keysOf_dset_nodup _ _ _ h)

theorem consolidate_sanitized_clip (ds : List Dict)
    (h : ∀ d ∈ ds, (keysOf d).Nodup) (key : String)
    (hkey : ∀ d, okV (dget (sanitize d) key) = true →
      clipB (cleanNumV (dget (sanitize d) key)) lo hi = true) :
    clipB (cleanNumV (maskAbs (dget (consolidate (ds.map sanitize)) key))) lo hi =
      okV (dget (consolidate (ds.map sanitize)) key) := by
  have hnod : ∀ r ∈ ds.map sanitize, (keysOf r).Nodup := by
    intro r hr
    rw [List.mem_map] at hr
    obtain ⟨d, hd, rfl⟩ := hr
    exact sanitize_nodup d (h d hd)
  have hmask := consolidate_mask (ds.map sanitize) key hnod
  by_cases hok : okV (dget (consolidate (ds.map sanitize)) key) = true
  · rw [hok]
    have hmm : maskAbs (dget (consolidate (ds.map sanitize)) key) =
        dget (consolidate (ds.map sanitize)) key := by
      unfold maskAbs
      rw [if_pos hok]
    rw [hmm] at hmask ⊢
    cases hf : (ds.map sanitize).find? (fun r => okV (dget r key)) with
    | none =>
      rw [firstOkVal, hf] at hmask
      rw [hmask] at hok
      exact absurd hok (by simp [okV])
    | some r =>
      rw [firstOkVal, hf] at hmask
      have hmem := List.mem_of_find?_eq_some hf
      rw [List.mem_map] at hmem
      obtain ⟨d, hd, rfl⟩ := hmem
      have hp := List.find?_some hf
      rw [hmask]
      exact hkey d hp
  · rw [Bool.not_eq_true] at hok
    rw [hok]
    have hmm : maskAbs (dget (consolidate (ds.map sanitize)) key) = Value.none := by
      unfold maskAbs
      rw [hok]
      simp
    rw [hmm]
    rfl

/-- A source record claiming only 5 quotaholders: no bound check touches it. -/
def cexCotistas : Dict := [("Nº de cotistas", Value.str "5")]

theorem clean_num_eval_five : clean_num "5" = Option.some (5 : ℚ) := by
  show (pyShape (cnStage5 (cnStage4 (pyStrip (cnStage2 (cnStage1
    "5".data)))))).map ratOfParts = _
  rw [(by decide : pyShape (cnStage5 (cnStage4 (pyStrip (cnStage2 (cnStage1
    "5".data))))) = Option.some (false, ['5'], []))]
  simp only [Option.map_some', ratOfParts, Bool.cond_false, Option.some.injEq]
  rw [(by decide : digitsToNat ['5'] = 5), (by decide : digitsToNat ([] : List Char) = 0)]
  norm_num

/-- C4 counterexample: a consolidated record built from sanitized source
records can carry a quotaholder count of 5, far below the claimed `≥ 200`
bound — the code bound-checks only dividend yield and P/VP, so the claim that
every present indicator passed a plausibility range check is false. -/
theorem C4_counterexample_quotaholders :
    dget (consolidate [sanitize cexCotistas]) "Nº de cotistas" = Value.str "5" ∧
    okV (dget (consolidate [sanitize cexCotistas]) "Nº de cotistas") = true ∧
    cleanNumV (dget (consolidate [sanitize cexCotistas]) "Nº de cotistas") =
      Option.some (5 : ℚ) ∧
    ¬ (200 : ℚ) ≤ 5 := by
  have h1 : dget (consolidate [sanitize cexCotistas]) "Nº de cotistas" =
      Value.str "5" := by decide
  refine ⟨h1, by rw [h1]; rfl, ?_, by norm_num⟩
  rw [h1]
  exact clean_num_eval_five

/-- C4 (amended): the plausibility invariant holds exactly for the two
indicators the code checks — in a consolidated record built from sanitized
source records, the dividend yield, when present, has a cleaned value in
`[0, 40]`, and P/VP, when present, has a cleaned value in `[0.4, 2.2]`
(out-of-range values were replaced by `None`); no other indicator (quotaholder
count, net worth, …) is bound-checked at all. -/
theorem C4_plausibility_only_dy_pvp (ds : List Dict)
    (h : ∀ d ∈ ds, (keysOf d).Nodup) :
    (clipB (cleanNumV (maskAbs (dget (consolidate (ds.map sanitize)) DYkey))) 0 40 =
      okV (dget (consolidate (ds.map sanitize)) DYkey)) ∧
    (clipB (cleanNumV (maskAbs (dget (consolidate (ds.map sanitize)) PVPkey)))
        (4/10) (22/10) =
      okV (dget (consolidate (ds.map sanitize)) PVPkey)) :=
  ⟨consolidate_sanitized_clip ds h DYkey sanitize_DY_ok,
   consolidate_sanitized_clip ds h PVPkey sanitize_PVP_ok⟩

/-- Witness for C4 at a concrete singleton list of source records. -/
theorem C4_plausibility_only_dy_pvp_witness :
    (∀ d ∈ [cexCotistas], (keysOf d).Nodup) ∧
    (clipB (cleanNumV (maskAbs (dget (consolidate ([cexCotistas].map sanitize))
        DYkey))) 0 40 =
      okV (dget (consolidate ([cexCotistas].map sanitize)) DYkey)) :=
  ⟨by decide, (C4_plausibility_only_dy_pvp [cexCotistas] (by decide)).1⟩

-- ===== HTTP fetch control flow (the three fetchers, C5/C6) =====

/-- The outcome of one `requests.get` call: a response with status code and
body text, or a transport failure (the `requests` library raising). -/
inductive HttpResult where
  | success (status : Nat) (text : String) : HttpResult
  | failure : HttpResult
deriving DecidableEq, Repr

/-- Embeds the fetch control flow of `fetch_fundsexplorer` (lines 54-117) over
an abstract network (`net n` is the outcome the network would give to the
n-th HTTP attempt; the code performs exactly one `requests.get`, so only
`net 0` is ever consulted) and an abstract body extraction (`extract`, the
BeautifulSoup label search of lines 63-111, which the claims do not touch).
`requests.get` raising is NOT caught anywhere in the function, so a transport
failure propagates (`Except.error`); a non-200 status returns `{}`; otherwise
the extracted record passes the sanity lines and is returned. -/
def fetch_fundsexplorer (extract : String → Dict) (net : Nat → HttpResult) :
    Except Unit Dict :=
  match net 0 with
  | HttpResult.failure => Except.error ()
  | HttpResult.success status text =>
    if status ≠ 200 then Except.ok [] else Except.ok (sanitize (extract text))

/-- Embeds the fetch control flow of `fetch_statusinvest` (lines 119-144);
identical to `fetch_fundsexplorer` up to its own extraction function. -/
def fetch_statusinvest (extract : String → Dict) (net : Nat → HttpResult) :
    Except Unit Dict :=
  match net 0 with
  | HttpResult.failure => Except.error ()
  | HttpResult.success status text =>
    if status ≠ 200 then Except.ok [] else Except.ok (sanitize (extract text))

/-- Embeds the fetch control flow of `fetch_investidor10` (lines 146-175);
identical to `fetch_fundsexplorer` up to its own extraction function. -/
def fetch_investidor10 (extract : String → Dict) (net : Nat → HttpResult) :
    Except Unit Dict :=
  match net 0 with
  | HttpResult.failure => Except.error ()
  | HttpResult.success status text =>
    if status ≠ 200 then Except.ok [] else Except.ok (sanitize (extract text))

/-- Modelled from the spec: which outcomes the spec's HTTP Fault-Tolerant
Client (section 4.3, absent from the code) would retry — 429, 5xx and
transient transport faults. -/
def specRetryable : HttpResult → Bool
  | HttpResult.failure => true
  | HttpResult.success status _ => status = 429 || (500 ≤ status && status ≤ 599)

/-- Modelled from the spec: the connector as the spec's claim describes it,
with the Client retrying up to 5 attempts and exhausted retries degrading to
an empty record.  Exists ONLY to contrast with the single-attempt code. -/
def specClientFetch (extract : String → Dict) (net : Nat → HttpResult) : Dict :=
  match (List.range 5).find? (fun i => !specRetryable (net i)) with
  | Option.some i =>
    match net i with
    | HttpResult.failure => []
    | HttpResult.success status text =>
      if status ≠ 200 then [] else sanitize (extract text)
  | Option.none => []

/-- A network whose first attempt is rate-limited (429) and whose second
attempt would succeed with status 200. -/
def cexNet429 : Nat → HttpResult
  | 0 => HttpResult.success 429 ""
  | _ => HttpResult.success 200 "body"

/-- A network where every attempt is a transport failure. -/
def cexNetFail : Nat → HttpResult := fun _ => HttpResult.failure

/-- A fixed extraction result used in the connector counterexamples. -/
def cexExtract : String → Dict := fun _ => [("Gestora", Value.str "G")]

/-- C5 counterexample: a transport failure does NOT yield an empty source
record — `requests.get` is called with no `try/except`, so the exception
propagates out of the connector to its caller. -/
theorem C5_counterexample_transport_raises :
    fetch_fundsexplorer cexExtract cexNetFail = Except.error () ∧
    fetch_statusinvest cexExtract cexNetFail = Except.error () ∧
    fetch_investidor10 cexExtract cexNetFail = Except.error () :=
  ⟨rfl, rfl, rfl⟩

/-- C5 (amended): every connector returns an entirely empty source record on
any non-200 HTTP status, without raising; but a transport failure propagates
the HTTP library's exception to the caller instead of degrading to an empty
record. -/
theorem C5_non200_empty_failure_raises :
    (∀ (e : String → Dict) (net : Nat → HttpResult) (st : Nat) (t : String),
      net 0 = HttpResult.success st t → st ≠ 200 →
      fetch_fundsexplorer e net = Except.ok [] ∧
      fetch_statusinvest e net = Except.ok [] ∧
      fetch_investidor10 e net = Except.ok []) ∧
    (∀ (e : String → Dict) (net : Nat → HttpResult),
      net 0 = HttpResult.failure →
      fetch_fundsexplorer e net = Except.error () ∧
      fetch_statusinvest e net = Except.error () ∧
      fetch_investidor10 e net = Except.error ()) := by
  constructor
  · intro e net st t h0 hst
    refine ⟨?_, ?_, ?_⟩ <;>
      simp [fetch_fundsexplorer, fetch_statusinvest, fetch_investidor10, h0, hst]
  · intro e net h0
    refine ⟨?_, ?_, ?_⟩ <;>
      simp [fetch_fundsexplorer, fetch_statusinvest, fetch_investidor10, h0]

/-- Witness for C5 at a 404 response and at a transport failure. -/
theorem C5_non200_empty_failure_raises_witness :
    ((fun (_ : Nat) => HttpResult.success 404 "") 0 = HttpResult.success 404 "") ∧
    (404 ≠ 200) ∧
    fetch_fundsexplorer cexExtract (fun _ => HttpResult.success 404 "") =
      Except.ok [] ∧
    cexNetFail 0 = HttpResult.failure ∧
    fetch_fundsexplorer cexExtract cexNetFail = Except.error () :=
  ⟨rfl, by decide,
   (C5_non200_empty_failure_raises.1 cexExtract (fun _ => HttpResult.success 404 "")
     404 "" rfl (by decide)).1,
   rfl,
   (C5_non200_empty_failure_raises.2 cexExtract cexNetFail rfl).1⟩

/-- C6 counterexample: the code does not retry at all.  On a network whose
first attempt returns 429 and whose second attempt would return the page with
status 200, the connector returns an empty record, while the retrying client
the claim describes (up to 5 attempts, backoff) would have reached the 200
response and produced a non-empty record. -/
theorem C6_counterexample_no_retry_on_429 :
    fetch_fundsexplorer cexExtract cexNet429 = Except.ok [] ∧
    specClientFetch cexExtract cexNet429 =
      [("Gestora", Value.str "G"), (DYkey, Value.none), (PVPkey, Value.none)] ∧
    Except.ok (specClientFetch cexExtract cexNet429) ≠
      fetch_fundsexplorer cexExtract cexNet429 := by
  refine ⟨rfl, rfl, ?_⟩
  intro h
  have h2 := Except.ok.inj h
  exact absurd h2 (by decide)

/-- C6 (amended): there is no retry, backoff or attempt ceiling: each
connector consults only the first network attempt, and a 429 (like any other
non-200 status, 5xx included) immediately yields an empty source record;
transport failures raise instead of degrading. -/
theorem C6_single_attempt_no_retry
    (e : String → Dict) (net net2 : Nat → HttpResult) (h : net 0 = net2 0) :
    (fetch_fundsexplorer e net = fetch_fundsexplorer e net2 ∧
     fetch_statusinvest e net = fetch_statusinvest e net2 ∧
     fetch_investidor10 e net = fetch_investidor10 e net2) ∧
    (∀ (t : String) (rest : Nat → HttpResult),
      fetch_fundsexplorer e
        (fun n => if n = 0 then HttpResult.success 429 t else rest n) =
        Except.ok []) := by
  constructor
  · refine ⟨?_, ?_, ?_⟩ <;>
      simp only [fetch_fundsexplorer, fetch_statusinvest, fetch_investidor10, h]
  · intro t rest
    simp [fetch_fundsexplorer]

/-- Witness for C6: two networks agreeing on the first attempt. -/
theorem C6_single_attempt_no_retry_witness :
    (cexNet429 0 = cexNet429 0) ∧
    fetch_fundsexplorer cexExtract cexNet429 =
      fetch_fundsexplorer cexExtract cexNet429 :=
  ⟨rfl, (C6_single_attempt_no_retry cexExtract cexNet429 cexNet429 rfl).1.1⟩

-- ===== scoring engine (`parecer`, lines 214-260) =====

/-- List-level `startsWith` on characters (for Python's substring test). -/
def lstartsWith : List Char → List Char → Bool
  | _, [] => true
  | [], _ :: _ => false
  | x :: xs, y :: ys => x = y && lstartsWith xs ys

/-- List-level substring containment (for Python's substring test). -/
def lcontainsSub (nee : List Char) : List Char → Bool
  | [] => nee.isEmpty
  | c :: rest => lstartsWith (c :: rest) nee || lcontainsSub nee rest

/-- Python `nee in hay` on strings. -/
def strContains (hay nee : String) : Bool := lcontainsSub nee.data hay.data

/-- Floor of a rational as an integer (`Int.fdiv` is floor division). -/
def ratFloor (q : ℚ) : ℤ := q.num.fdiv (q.den : ℤ)

/-- Python `f"{v:.1f}"` rounding: the multiple of 0.1 nearest to `v`, ties to
even, as an integer count of tenths. -/
def roundTenths (q : ℚ) : ℤ :=
  let x := q * 10
  let f := ratFloor x
  let r := x - (f : ℚ)
  if r < 1/2 then f
  else if 1/2 < r then f + 1
  else if f % 2 = 0 then f else f + 1

/-- Python `f"{v:.1f}"`: one digit after the decimal point. -/
def fmt1 (q : ℚ) : String :=
  let n := roundTenths q
  let m := n.natAbs
  (if n < 0 then "-" else "") ++ toString (m / 10) ++ "." ++ toString (m % 10)

/-- The P/VP block of `parecer` (lines 224-232): an absent P/VP still appends
the message `"P/VP indisponível."` (with score contribution 0). -/
def pvpBlock : Option ℚ → List String × Int
  | Option.none => (["P/VP indisponível."], 0)
  | Option.some p =>
    if p < 0.95 then (["P/VP < 0,95 → **desconto interessante**."], 2)
    else if 0.95 ≤ p ∧ p ≤ 1.05 then (["P/VP ≈ 1 → **preço justo**."], 1)
    else (["P/VP > 1,05 → **prêmio**; pode estar **caro**."], -1)

/-- The dividend-yield block of `parecer` (lines 234-238): absent DY appends
nothing. -/
def dyBlock : Option ℚ → List String × Int
  | Option.none => ([], 0)
  | Option.some d =>
    if 12 ≤ d then (["DY " ++ fmt1 d ++ "% a.a. → **renda alta**."], 2)
    else if 9 ≤ d then (["DY " ++ fmt1 d ++ "% a.a. → renda ok."], 1)
    else (["DY " ++ fmt1 d ++ "% a.a. → renda baixa."], -1)

/-- The risk-classification block of `parecer` (lines 240-246): the middle
branch appends a message with score contribution 0. -/
def riscoBlock (risco : String) : List String × Int :=
  if strContains risco "high yield" || strContains risco "alto" then
    (["Classificação **High Yield** → risco elevado."], -1)
  else if strContains risco "middle" || strContains risco "médio" then
    (["Risco **médio** (middle)."], 0)
  else if strContains risco "grade" || strContains risco "baixo" then
    (["Risco **baixo** (high grade)."], 1)
  else ([], 0)

/-- The leverage block of `parecer` (lines 248-250): leverage in (0, 20]
appends an "ok" message with score contribution 0. -/
def alavBlock : Option ℚ → List String × Int
  | Option.none => ([], 0)
  | Option.some a =>
    if 20 < a then (["Alavancagem " ++ fmt1 a ++ "% → cuidado."], -1)
    else if 0 < a then (["Alavancagem " ++ fmt1 a ++ "% → ok."], 0)
    else ([], 0)

/-- The concentration block of `parecer` (lines 252-253). -/
def concBlock : Option ℚ → List String × Int
  | Option.none => ([], 0)
  | Option.some c =>
    if 10 < c then
      (["Concentração " ++ fmt1 c ++ "% no maior ativo → risco de crédito."], -1)
    else ([], 0)

/-- Line 215: `pvp = _clean_num(row.get("P/VP"))`. -/
def pvpOf (row : Dict) : Option ℚ := cleanNumV (dget row PVPkey)

/-- Line 216: `dy = _clean_num(row.get("Dividend Yield 12m (%)"))`. -/
def dyOf (row : Dict) : Option ℚ := cleanNumV (dget row DYkey)

/-- Python `str.lower()` (ASCII lowering, as `Char.toLower`; the risk labels
matched below are ASCII-lowercase except for accented letters that Python
would leave unchanged too when already lowercase). -/
def pyLower (s : String) : String := String.mk (s.data.map Char.toLower)

/-- Line 217: `risco = str(row.get("Classificação de risco") or "").lower()`. -/
def riscoOf (row : Dict) : String :=
  pyLower (match dget row "Classificação de risco" with
    | Value.none => ""
    | Value.str s => s)

/-- Line 218: `alav = _clean_num(row.get("Alavancagem (%)"))`. -/
def alavOf (row : Dict) : Option ℚ := cleanNumV (dget row "Alavancagem (%)")

/-- Line 219: `conc = _clean_num(row.get("Concentração maior ativo (%)"))`. -/
def concOf (row : Dict) : Option ℚ := cleanNumV (dget row "Concentração maior ativo (%)")

/-- The result dict of `parecer` (line 260). -/
structure Parecer where
  score : Int
  veredito : String
  detalhes : String
deriving DecidableEq, Repr

/-- Verdict of line 256. -/
def verdictAttr : String := "✅ Vale a pena (barato/atrativo)"

/-- Verdict of line 257. -/
def verdictNeutral : String := "🟨 Ok/Neutro (preço justo)"

/-- Verdict of line 258. -/
def verdictCaution : String := "❌ Não vale / Cuidado (caro ou arriscado)"

/-- The `msgs` list accumulated by `parecer`: the sequential appends equal the
concatenation of the five independent blocks, in source order. -/
def parecerMsgs (row : Dict) : List String :=
  (pvpBlock (pvpOf row)).1 ++ (dyBlock (dyOf row)).1 ++ (riscoBlock (riscoOf row)).1 ++
    (alavBlock (alavOf row)).1 ++ (concBlock (concOf row)).1

/-- The `score` accumulated by `parecer`: the sequential `+=`/`-=` equal the
sum of the five independent blocks' contributions. -/
def parecerScore (row : Dict) : Int :=
  (pvpBlock (pvpOf row)).2 + (dyBlock (dyOf row)).2 + (riscoBlock (riscoOf row)).2 +
    (alavBlock (alavOf row)).2 + (concBlock (concOf row)).2

/-- Embeds `parecer` (lines 214-260): pure function of the record; verdict
thresholds at 3 and 1; `detalhes` joins the messages with `" | "`. -/
def parecer (row : Dict) : Parecer :=
  { score := parecerScore row
    veredito :=
      if 3 ≤ parecerScore row then verdictAttr
      else if 1 ≤ parecerScore row then verdictNeutral
      else verdictCaution
    detalhes := String.intercalate " | " (parecerMsgs row) }

/-- The spec's scoring example: `price_to_book=0.9, dividend_yield_12m=13`,
everything else absent. -/
def exRecord09 : Dict := [(PVPkey, Value.str "0.9"), (DYkey, Value.str "13")]

theorem clean_num_eval_09 : clean_num "0.9" = Option.some (0.9 : ℚ) := by
  show (pyShape (cnStage5 (cnStage4 (pyStrip (cnStage2 (cnStage1
    "0.9".data)))))).map ratOfParts = _
  rw [(by decide : pyShape (cnStage5 (cnStage4 (pyStrip (cnStage2 (cnStage1
    "0.9".data))))) = Option.some (false, ['0'], ['9']))]
  simp only [Option.map_some', ratOfParts, Bool.cond_false, Option.some.injEq]
  rw [(by decide : digitsToNat ['0'] = 0), (by decide : digitsToNat ['9'] = 9)]
  norm_num

theorem clean_num_eval_13 : clean_num "13" = Option.some (13 : ℚ) := by
  show (pyShape (cnStage5 (cnStage4 (pyStrip (cnStage2 (cnStage1
    "13".data)))))).map ratOfParts = _
  rw [(by decide : pyShape (cnStage5 (cnStage4 (pyStrip (cnStage2 (cnStage1
    "13".data))))) = Option.some (false, ['1', '3'], []))]
  simp only [Option.map_some', ratOfParts, Bool.cond_false, Option.some.injEq]
  rw [(by decide : digitsToNat ['1', '3'] = 13),
    (by decide : digitsToNat ([] : List Char) = 0)]
  norm_num

theorem pvpBlock_some (p : ℚ) : pvpBlock (Option.some p) =
    (if p < 0.95 then (["P/VP < 0,95 → **desconto interessante**."], 2)
     else if 0.95 ≤ p ∧ p ≤ 1.05 then (["P/VP ≈ 1 → **preço justo**."], 1)
     else (["P/VP > 1,05 → **prêmio**; pode estar **caro**."], -1)) := rfl

theorem dyBlock_some (d : ℚ) : dyBlock (Option.some d) =
    (if 12 ≤ d then (["DY " ++ fmt1 d ++ "% a.a. → **renda alta**."], 2)
     else if 9 ≤ d then (["DY " ++ fmt1 d ++ "% a.a. → renda ok."], 1)
     else (["DY " ++ fmt1 d ++ "% a.a. → renda baixa."], -1)) := rfl

theorem alavBlock_some (a : ℚ) : alavBlock (Option.some a) =
    (if 20 < a then (["Alavancagem " ++ fmt1 a ++ "% → cuidado."], -1)
     else if 0 < a then (["Alavancagem " ++ fmt1 a ++ "% → ok."], 0)
     else ([], 0)) := rfl

theorem concBlock_some (c : ℚ) : concBlock (Option.some c) =
    (if 10 < c then
       (["Concentração " ++ fmt1 c ++ "% no maior ativo → risco de crédito."], -1)
     else ([], 0)) := rfl

theorem exRecord09_score : parecerScore exRecord09 = 4 := by
  have hp : pvpOf exRecord09 = Option.some (0.9 : ℚ) := by
    show cleanNumV (dget exRecord09 PVPkey) = _
    rw [(by decide : dget exRecord09 PVPkey = Value.str "0.9")]
    exact clean_num_eval_09
  have hd : dyOf exRecord09 = Option.some (13 : ℚ) := by
    show cleanNumV (dget exRecord09 DYkey) = _
    rw [(by decide : dget exRecord09 DYkey = Value.str "13")]
    exact clean_num_eval_13
  have hpb : (pvpBlock (Option.some (0.9 : ℚ))).2 = 2 := by
    rw [pvpBlock_some, if_pos (by norm_num : (0.9 : ℚ) < 0.95)]
  have hdb : (dyBlock (Option.some (13 : ℚ))).2 = 2 := by
    rw [dyBlock_some, if_pos (by norm_num : (12 : ℚ) ≤ 13)]
  unfold parecerScore
  rw [hp, hd, hpb, hdb]
  decide

theorem exRecord09_veredito : (parecer exRecord09).veredito = verdictAttr := by
  show (if 3 ≤ parecerScore exRecord09 then verdictAttr
    else if 1 ≤ parecerScore exRecord09 then verdictNeutral else verdictCaution) = _
  rw [exRecord09_score]
  rfl

/-- C2: the scoring function is a total, deterministic function of the
record (a plain function in this embedding); its score is the sum of the five
rule blocks; absent indicators contribute 0; the price-to-book increments are
+2 below 0.95, +1 in [0.95, 1.05], −1 above 1.05; the verdict is "attractive"
for total ≥ 3, "neutral/fair" for total ≥ 1, else "expensive/caution"; the
record `price_to_book=0.9, dividend_yield_12m=13` scores 4 and is attractive,
and the all-absent record scores 0 and is "expensive/caution". -/
theorem C2_scoring_rules_and_thresholds :
    (∀ row : Dict, (parecer row).score =
      (pvpBlock (pvpOf row)).2 + (dyBlock (dyOf row)).2 + (riscoBlock (riscoOf row)).2 +
        (alavBlock (alavOf row)).2 + (concBlock (concOf row)).2) ∧
    ((pvpBlock Option.none).2 = 0 ∧ (dyBlock Option.none).2 = 0 ∧
      (riscoBlock (riscoOf [])).2 = 0 ∧ (alavBlock Option.none).2 = 0 ∧
      (concBlock Option.none).2 = 0) ∧
    (∀ q : ℚ, (pvpBlock (Option.some q)).2 =
      if q < 0.95 then 2 else if q ≤ 1.05 then 1 else -1) ∧
    (∀ row : Dict, (parecer row).veredito =
      if 3 ≤ (parecer row).score then verdictAttr
      else if 1 ≤ (parecer row).score then verdictNeutral
      else verdictCaution) ∧
    (parecer exRecord09).score = 4 ∧ (parecer exRecord09).veredito = verdictAttr ∧
    (parecer []).score = 0 ∧ (parecer []).veredito = verdictCaution := by
  refine ⟨fun row => rfl, ⟨by decide, by decide, by decide, by decide, by decide⟩,
    ?_, fun row => rfl, exRecord09_score, exRecord09_veredito, by decide, by decide⟩
  intro q
  rw [pvpBlock_some]
  by_cases h1 : q < 0.95
  · rw [if_pos h1, if_pos h1]
  · have h2 : (0.95 : ℚ) ≤ q := not_lt.mp h1
    rw [if_neg h1, if_neg h1]
    by_cases h3 : q ≤ 1.05
    · rw [if_pos ⟨h2, h3⟩, if_pos h3]
    · rw [if_neg (fun hc => h3 hc.2), if_neg h3]

/-- C9 counterexample: on the all-absent record no scoring rule fires, yet
the explanation list is not empty — the absent-P/VP branch appends
`"P/VP indisponível."`, so "no string for a rule that did not fire, in
particular none for an absent indicator" is false. -/
theorem C9_counterexample_absent_pvp_message :
    pvpOf [] = Option.none ∧
    parecerScore [] = 0 ∧
    parecerMsgs [] = ["P/VP indisponível."] ∧
    parecerMsgs [] ≠ [] :=
  ⟨rfl, rfl, rfl, by decide⟩

/-- C9 (amended): the explanation list is the concatenation of the five rule
blocks in rule-table order (price-to-book, dividend yield, risk, leverage,
concentration), with at most one string per block; a block contributes a
string exactly when: always for P/VP (including the "indisponível" message
when absent), when present for DY, when one of the three label groups matches
for risk, when present and positive for leverage (including the
score-neutral "ok" message for values ≤ 20), and when present and above 10
for concentration. -/
theorem C9_explanations_order_and_presence :
    (∀ row : Dict, parecerMsgs row =
      (pvpBlock (pvpOf row)).1 ++ (dyBlock (dyOf row)).1 ++
        (riscoBlock (riscoOf row)).1 ++ (alavBlock (alavOf row)).1 ++
        (concBlock (concOf row)).1) ∧
    (∀ o : Option ℚ, (pvpBlock o).1.length = 1) ∧
    (∀ o : Option ℚ, (dyBlock o).1.length = if o.isSome then 1 else 0) ∧
    (∀ s : String, (riscoBlock s).1.length =
      if strContains s "high yield" || strContains s "alto" ||
         strContains s "middle" || strContains s "médio" ||
         strContains s "grade" || strContains s "baixo" then 1 else 0) ∧
    (∀ q : ℚ, (alavBlock (Option.some q)).1.length = if 0 < q then 1 else 0) ∧
    (alavBlock Option.none).1 = [] ∧
    (∀ q : ℚ, (concBlock (Option.some q)).1.length = if 10 < q then 1 else 0) ∧
    (concBlock Option.none).1 = [] := by
  refine ⟨fun row => rfl, ?_, ?_, ?_, ?_, rfl, ?_, rfl⟩
  · intro o
    cases o with
    | none => rfl
    | some q =>
      rw [pvpBlock_some]
      split_ifs <;> rfl
  · intro o
    cases o with
    | none => rfl
    | some q =>
      have hr : (if (Option.some q).isSome = true then 1 else 0) = 1 := rfl
      rw [dyBlock_some, hr]
      split_ifs <;> rfl
  · intro s
    cases hb1 : strContains s "high yield" <;> cases hb2 : strContains s "alto" <;>
      cases hb3 : strContains s "middle" <;> cases hb4 : strContains s "médio" <;>
      cases hb5 : strContains s "grade" <;> cases hb6 : strContains s "baixo" <;>
      simp [riscoBlock, hb1, hb2, hb3, hb4, hb5, hb6]
  · intro q
    rw [alavBlock_some]
    by_cases h1 : (20 : ℚ) < q
    · rw [if_pos h1, if_pos (lt_trans (by norm_num) h1)]
      rfl
    · rw [if_neg h1]
      by_cases h2 : (0 : ℚ) < q
      · rw [if_pos h2, if_pos h2]
        rfl
      · rw [if_neg h2, if_neg h2]
        rfl
  · intro q
    rw [concBlock_some]
    by_cases h1 : (10 : ℚ) < q
    · rw [if_pos h1, if_pos h1]
      rfl
    · rw [if_neg h1, if_neg h1]
      rfl

-- ===== ledger store (save append, upload merge; C7/C8) =====

/-- The dedup key of the upload merge: the values of the `"Data"` and
`"Ticker"` columns. -/
def ledgerKey (r : Dict) : Value × Value := (dget r "Data", dget r "Ticker")

/-- Embeds the save path of the form handler (lines 336-352):
`pd.concat([df, pd.DataFrame([row])])` appends the new row unconditionally —
no dedup of any kind. -/
def appendRow (df : List Dict) (row : Dict) : List Dict := df ++ [row]

/-- Embeds `drop_duplicates(subset=["Data","Ticker"], keep="last")` (line
413): for each `(Data, Ticker)` key only the last occurrence survives, kept
rows staying in their original order. -/
def dropDupLast : List Dict → List Dict
  | [] => []
  | r :: rest =>
    if rest.any (fun r2 => ledgerKey r2 == ledgerKey r) then dropDupLast rest
    else r :: dropDupLast rest

/-- Embeds the upload merge (lines 410-414): concatenate the stored frame with
the uploaded one, then drop duplicate `(Data, Ticker)` keys keeping the last. -/
def mergeLedger (df new : List Dict) : List Dict := dropDupLast (df ++ new)

theorem dropDupLast_cons (r : Dict) (rest : List Dict) :
    dropDupLast (r :: rest) =
      if rest.any (fun r2 => ledgerKey r2 == ledgerKey r) then dropDupLast rest
      else r :: dropDupLast rest := rfl

theorem dropDupLast_nodup (l : List Dict) (h : (l.map ledgerKey).Nodup) :
    dropDupLast l = l := by
  induction l with
  | nil => rfl
  | cons r rest ih =>
    simp only [List.map_cons, List.nodup_cons] at h
    obtain ⟨hr, hrest⟩ := h
    have hany : rest.any (fun r2 => ledgerKey r2 == ledgerKey r) = false := by
      rw [List.any_eq_false]
      intro r2 hr2
      simp only [beq_iff_eq]
      intro heq
      exact hr (by rw [← heq]; exact List.mem_map_of_mem ledgerKey hr2)
    rw [dropDupLast_cons, hany]
    simp [ih hrest]

theorem dropDupLast_append_fresh (l : List Dict) (x : Dict)
    (h : ledgerKey x ∉ l.map ledgerKey) :
    dropDupLast (l ++ [x]) = dropDupLast l ++ [x] := by
  induction l with
  | nil => rfl
  | cons r rest ih =>
    simp only [List.map_cons, List.mem_cons, not_or] at h
    obtain ⟨hne, hnotin⟩ := h
    have hany : (rest ++ [x]).any (fun r2 => ledgerKey r2 == ledgerKey r) =
        rest.any (fun r2 => ledgerKey r2 == ledgerKey r) := by
      rw [List.any_append]
      have hx : ([x].any fun r2 => ledgerKey r2 == ledgerKey r) = false := by
        simp [hne]
      rw [hx, Bool.or_false]
    show (if (rest ++ [x]).any (fun r2 => ledgerKey r2 == ledgerKey r) then
        dropDupLast (rest ++ [x]) else r :: dropDupLast (rest ++ [x])) = _
    rw [hany, dropDupLast_cons]
    by_cases hb : rest.any (fun r2 => ledgerKey r2 == ledgerKey r) = true
    · rw [if_pos hb, if_pos hb, ih hnotin]
    · rw [if_neg hb, if_neg hb, ih hnotin]
      rfl

theorem dropDupLast_append_overlap (l : List Dict) (x : Dict)
    (hnd : (l.map ledgerKey).Nodup) (hin : ledgerKey x ∈ l.map ledgerKey) :
    dropDupLast (l ++ [x]) =
      l.filter (fun r => !(ledgerKey r == ledgerKey x)) ++ [x] := by
  induction l with
  | nil => simp at hin
  | cons r rest ih =>
    simp only [List.map_cons, List.nodup_cons] at hnd
    obtain ⟨hr, hrest⟩ := hnd
    rw [List.map_cons, List.mem_cons] at hin
    show (if (rest ++ [x]).any (fun r2 => ledgerKey r2 == ledgerKey r) then
        dropDupLast (rest ++ [x]) else r :: dropDupLast (rest ++ [x])) = _
    rcases hin with heq | hin2
    · have hany : (rest ++ [x]).any (fun r2 => ledgerKey r2 == ledgerKey r) = true := by
        rw [List.any_append]
        have hx : ([x].any fun r2 => ledgerKey r2 == ledgerKey r) = true := by
          simp [heq]
        rw [hx, Bool.or_true]
      rw [if_pos hany]
      have hnotin : ledgerKey x ∉ rest.map ledgerKey := by
        rw [heq]
        exact hr
      rw [dropDupLast_append_fresh rest x hnotin, dropDupLast_nodup rest hrest]
      have hfil : (r :: rest).filter (fun r2 => !(ledgerKey r2 == ledgerKey x)) =
          rest := by
        rw [List.filter_cons]
        have hcond : (!(ledgerKey r == ledgerKey x)) = false := by
          simp [heq]
        rw [hcond]
        simp only [Bool.false_eq_true, if_false]
        refine List.filter_eq_self.mpr ?_
        intro r2 hr2
        have hne2 : ledgerKey r2 ≠ ledgerKey x := fun heq2 =>
          hnotin (by rw [← heq2]; exact List.mem_map_of_mem ledgerKey hr2)
        simp [hne2]
      rw [hfil]
    · have hne : ledgerKey x ≠ ledgerKey r := by
        intro hh
        exact hr (hh ▸ hin2)
      have hany : (rest ++ [x]).any (fun r2 => ledgerKey r2 == ledgerKey r) =
          rest.any (fun r2 => ledgerKey r2 == ledgerKey r) := by
        rw [List.any_append]
        have hx : ([x].any fun r2 => ledgerKey r2 == ledgerKey r) = false := by
          simp [hne]
        rw [hx, Bool.or_false]
      have hanyr : rest.any (fun r2 => ledgerKey r2 == ledgerKey r) = false := by
        rw [List.any_eq_false]
        intro r2 hr2
        simp only [beq_iff_eq]
        intro heq2
        exact hr (by rw [← heq2]; exact List.mem_map_of_mem ledgerKey hr2)
      rw [hany, hanyr]
      simp only [Bool.false_eq_true, if_false]
      rw [ih hrest hin2, List.filter_cons]
      have hcond : (!(ledgerKey r == ledgerKey x)) = true := by
        simp [Ne.symm hne]
      rw [hcond]
      rfl

theorem filter_out_one_length (l : List Dict) (k : Value × Value)
    (hnd : (l.map ledgerKey).Nodup) (hin : k ∈ l.map ledgerKey) :
    (l.filter (fun r => !(ledgerKey r == k))).length + 1 = l.length := by
  induction l with
  | nil => simp at hin
  | cons r rest ih =>
    simp only [List.map_cons, List.nodup_cons] at hnd
    obtain ⟨hr, hrest⟩ := hnd
    rw [List.map_cons, List.mem_cons] at hin
    rw [List.filter_cons]
    rcases hin with heq | hin2
    · have hcond : (!(ledgerKey r == k)) = false := by
        simp [heq]
      rw [hcond]
      simp only [Bool.false_eq_true, if_false]
      have hfil : rest.filter (fun r2 => !(ledgerKey r2 == k)) = rest := by
        refine List.filter_eq_self.mpr ?_
        intro r2 hr2
        have hne2 : ledgerKey r2 ≠ k := fun heq2 =>
          hr (by rw [← heq, ← heq2]; exact List.mem_map_of_mem ledgerKey hr2)
        simp [hne2]
      rw [hfil]
      simp
    · have hne : k ≠ ledgerKey r := by
        intro hh
        exact hr (hh ▸ hin2)
      have hcond : (!(ledgerKey r == k)) = true := by
        simp [Ne.symm hne]
      rw [hcond]
      simp only [if_true]
      have := ih hrest hin2
      simp only [List.length_cons]
      omega

/-- A ledger row for 2025-01-01 / MXRF11 carrying the given note. -/
def rowJan (note : String) : Dict :=
  [("Data", Value.str "2025-01-01"), ("Ticker", Value.str "MXRF11"),
   ("Notas", Value.str note)]

/-- A ledger row for a different date and ticker. -/
def rowFeb : Dict :=
  [("Data", Value.str "2025-02-01"), ("Ticker", Value.str "HGLG11"),
   ("Notas", Value.str "c")]

/-- C7 counterexample: the save path appends unconditionally, so two saves
with the same `(Data, Ticker)` key and different notes BOTH stay in the ledger
— "keeps at most one entry per key" is false for `append`; only the
CSV-upload merge deduplicates. -/
theorem C7_counterexample_append_no_dedup :
    appendRow (appendRow [] (rowJan "a")) (rowJan "b") = [rowJan "a", rowJan "b"] ∧
    ledgerKey (rowJan "a") = ledgerKey (rowJan "b") ∧
    rowJan "a" ≠ rowJan "b" ∧
    (appendRow (appendRow [] (rowJan "a")) (rowJan "b")).length = 2 :=
  ⟨rfl, rfl, by decide, rfl⟩

/-- C7 (amended): only the upload merge deduplicates.  Merging a dup-free
stored ledger with an incoming pair of one overlapping key and one new key
keeps, for the overlapping key, the incoming (later) row only, preserves all
rows with other keys, and grows the ledger by exactly one row.  The save path
(`appendRow`) performs no dedup at all. -/
theorem C7_merge_dedup_last_wins (old : List Dict) (over fresh : Dict)
    (hnd : (old.map ledgerKey).Nodup)
    (hover : ledgerKey over ∈ old.map ledgerKey)
    (hfresh : ledgerKey fresh ∉ old.map ledgerKey)
    (hne : ledgerKey fresh ≠ ledgerKey over) :
    mergeLedger old [over, fresh] =
      old.filter (fun r => !(ledgerKey r == ledgerKey over)) ++ [over, fresh] ∧
    (mergeLedger old [over, fresh]).length = old.length + 1 := by
  have hassoc : old ++ [over, fresh] = (old ++ [over]) ++ [fresh] := by simp
  have hfresh2 : ledgerKey fresh ∉ (old ++ [over]).map ledgerKey := by
    rw [List.map_append, List.mem_append]
    rintro (hm | hm)
    · exact hfresh hm
    · simp only [List.map_cons, List.map_nil, List.mem_cons, List.not_mem_nil,
        or_false] at hm
      exact hne hm
  have hmain : mergeLedger old [over, fresh] =
      old.filter (fun r => !(ledgerKey r == ledgerKey over)) ++ [over, fresh] := by
    unfold mergeLedger
    rw [hassoc, dropDupLast_append_fresh _ _ hfresh2,
      dropDupLast_append_overlap old over hnd hover]
    simp
  refine ⟨hmain, ?_⟩
  rw [hmain]
  have hlen := filter_out_one_length old (ledgerKey over) hnd hover
  rw [List.length_append]
  simp only [List.length_cons, List.length_nil]
  omega

/-- Witness for C7 at a one-row stored ledger. -/
theorem C7_merge_dedup_last_wins_witness :
    ([rowJan "a"].map ledgerKey).Nodup ∧
    ledgerKey (rowJan "b") ∈ [rowJan "a"].map ledgerKey ∧
    ledgerKey rowFeb ∉ [rowJan "a"].map ledgerKey ∧
    ledgerKey rowFeb ≠ ledgerKey (rowJan "b") ∧
    (mergeLedger [rowJan "a"] [rowJan "b", rowFeb]).length = [rowJan "a"].length + 1 :=
  ⟨by decide, by decide, by decide, by decide,
   (C7_merge_dedup_last_wins [rowJan "a"] (rowJan "b") rowFeb
     (by decide) (by decide) (by decide) (by decide)).2⟩

/-- C8 counterexample: `merge(load())` with nothing incoming is NOT a no-op on
every stored ledger — a ledger holding two rows with the same
`(Data, Ticker)` key (which the save path can create) loses the earlier row. -/
theorem C8_counterexample_dup_ledger :
    mergeLedger [rowJan "a", rowJan "b"] [] = [rowJan "b"] ∧
    [rowJan "b"] ≠ [rowJan "a", rowJan "b"] :=
  ⟨rfl, by decide⟩

/-- C8 (amended): merging with an empty incoming sequence returns the stored
ledger exactly — no row removed, added or reordered — provided the stored
ledger has no duplicate `(Data, Ticker)` keys; with duplicates, all but the
last occurrence of each key are dropped. -/
theorem C8_merge_empty_noop (old : List Dict)
    (hnd : (old.map ledgerKey).Nodup) :
    mergeLedger old [] = old := by
  unfold mergeLedger
  rw [List.append_nil]
  exact dropDupLast_nodup old hnd

/-- Witness for C8 at a two-row dup-free ledger. -/
theorem C8_merge_empty_noop_witness :
    ([rowJan "a", rowFeb].map ledgerKey).Nodup ∧
    mergeLedger [rowJan "a", rowFeb] [] = [rowJan "a", rowFeb] :=
  ⟨by decide, C8_merge_empty_noop [rowJan "a", rowFeb] (by decide)⟩

end AF
